import Mathlib

/-!
Verification of the harvest-kimai-transfer repository.

This file shallowly embeds the reconciliation and transfer engine of the
repository (src/db/storage.js, src/kimai/import.js) in Lean and proves the
specification claims about it.

Modelling conventions:

* JavaScript `Date` values are instants, modelled as `Int` milliseconds since
  the Unix epoch.  The process-local timezone is modelled as a fixed offset
  `tz` in milliseconds (local wall-clock time of instant `t` is `t + tz`;
  daylight-saving transitions are out of scope).  Two instants have the same
  local calendar date (equal `getFullYear`/`getMonth`/`getDate` triples)
  exactly when they fall on the same local day number, so the calendar date
  of an instant is modelled as `localDay tz t = (t + tz).fdiv msPerDay`
  (floor division, as in JavaScript's local calendar computation).
* A `YYYY-MM-DD` date string parses (`new Date(s)`) to the UTC midnight of
  that calendar day.  Date-only strings are in bijection with their epoch day
  numbers, so the `date` column value carried by a pending entry is modelled
  directly as the epoch day number `d`; its parsed instant is `d * msPerDay`.
* ISO timestamp strings stored in the `created_at` column are modelled as
  their parsed instants (`Option Int`, `none` for NULL or empty, both of
  which are falsy in the JavaScript truthiness test `if (entry.created_at)`).
* JavaScript number arithmetic on durations is modelled over `ℚ`;
  `Math.round` is floor of `x + 1/2` (ties toward positive infinity),
  implemented computably with `Int.fdiv` and proved equal to `⌊x + 1/2⌋`.
* SQLite tables are modelled as lists of row structures; NULLable TEXT
  columns are `Option String`.  Callback-style asynchronous code is
  sequential in the source (per-row statements inside `db.serialize`), and
  is modelled as the corresponding sequential pure state transformation.
-/

/-! ## Time model -/

def msPerMinute : Int := 60000

def msPerHour : Int := 3600000

def msPerDay : Int := 86400000

/-- Local epoch day number of instant `t` under timezone offset `tz`:
the `getFullYear`/`getMonth`/`getDate` triple of a JS `Date` determines and
is determined by this number. -/
def localDay (tz t : Int) : Int := (t + tz).fdiv msPerDay

/-- Effect of `d.setHours(9, 0, 0, 0)` on an instant `t`: move to 09:00:00.000
local wall-clock time of the local day containing `t`. -/
def setHours9 (tz t : Int) : Int := localDay tz t * msPerDay + 9 * msPerHour - tz

/-- JavaScript `Math.round` on an exact rational, computably:
`(2 q.num + q.den).fdiv (2 q.den)` equals `⌊q + 1/2⌋` (ties round up). -/
def jsRound (q : ℚ) : Int := (2 * q.num + (q.den : Int)).fdiv (2 * (q.den : Int))

theorem jsRound_eq_floor (q : ℚ) : jsRound q = ⌊q + 1 / 2⌋ := by
  have hden : (q.den : ℚ) ≠ 0 := Nat.cast_ne_zero.mpr q.den_nz
  have hq : q + 1 / 2 = ((2 * q.num + (q.den : Int) : Int) : ℚ) / ((2 * q.den : ℕ) : ℚ) := by
    rw [eq_div_iff (by positivity)]
    push_cast
    field_simp
    linear_combination (4 : ℚ) * Rat.mul_den_eq_num q
  rw [jsRound, hq, Rat.floor_intCast_div_natCast]
  rw [Int.fdiv_eq_ediv _ (by positivity)]
  norm_num

/-- JavaScript `s || d` for a NULLable string column value (NULL, undefined
and the empty string are falsy). -/
def jsOrElse (o : Option String) (d : String) : String :=
  match o with
  | none => d
  | some s => if s = "" then d else s

/-- JavaScript truthiness of a NULLable string column value. -/
def truthy (o : Option String) : Bool :=
  match o with
  | none => false
  | some s => s ≠ ""

/-- Value of one decimal digit character. -/
def digitVal (c : Char) : Nat := c.toNat - 48

/-- Accumulate the value of a digit sequence. -/
def digitsVal (l : List Char) : Nat := l.foldl (fun a c => a * 10 + digitVal c) 0

/-- JavaScript `parseInt(s, 10)`: skip leading whitespace, optional sign,
then the longest digit prefix; `none` models NaN (no digits). -/
def jsParseInt (s : String) : Option Int :=
  let l := s.data.dropWhile (fun c => c.isWhitespace)
  match l with
  | '-' :: r =>
      let ds := r.takeWhile (fun c => c.isDigit)
      if ds.isEmpty then none else some (-(digitsVal ds : Int))
  | '+' :: r =>
      let ds := r.takeWhile (fun c => c.isDigit)
      if ds.isEmpty then none else some (digitsVal ds : Int)
  | r =>
      let ds := r.takeWhile (fun c => c.isDigit)
      if ds.isEmpty then none else some (digitsVal ds : Int)

/-! ## Kimai importer (src/kimai/import.js, KimaiImporter)

A pending entry is one row of `getAllPendingEntries`:
`SELECT te.*, t.kimai_project_id, t.kimai_activity_id FROM time_entries te
LEFT JOIN tasks t ON te.task = t.name WHERE te.imported = 0`, with the
`date` and `created_at` text columns carried in parsed form (see header). -/

structure PendingEntry where
  harvest_id : String
  date : Int
  notes : Option String
  hours : ℚ
  created_at : Option Int
  kimai_project_id : Option String
  kimai_activity_id : Option String
deriving DecidableEq

/-- Payload of one `api.createTimesheet` call (`begin`/`end` are rendered
with `toISOString`, which is injective on instants, so they are kept as
instants; `project`/`activity` are `parseInt` results, `none` for NaN). -/
structure KimaiEntry where
  begin : Int
  «end» : Int
  description : String
  project : Option Int
  activity : Option Int
deriving DecidableEq

/-- KimaiImporter.transformEntry: derive the begin instant (created_at if its
local calendar date equals the entry's date; otherwise the chained end time
recorded for this date, if any; otherwise 09:00 local on the date obtained by
parsing the date string), add `Math.round(hours * 60)` minutes for the end
instant, record the end in the per-date map, and build the payload. -/
def transformEntry (tz : Int) (e : PendingEntry) (m : Int → Option Int) :
    KimaiEntry × (Int → Option Int) :=
  let dateObj : Int := e.date * msPerDay
  let beginTime : Int :=
    match e.created_at with
    | some c =>
        if localDay tz c = localDay tz dateObj then c
        else
          match m e.date with
          | some t => t
          | none => setHours9 tz dateObj
    | none =>
        match m e.date with
        | some t => t
        | none => setHours9 tz dateObj
  let endTime : Int := beginTime + jsRound (e.hours * 60) * msPerMinute
  (⟨beginTime, endTime, jsOrElse e.notes "", e.kimai_project_id.bind jsParseInt,
      e.kimai_activity_id.bind jsParseInt⟩,
    fun d => if d = e.date then some endTime else m d)

/-- Truthiness test guarding the transfer of an entry:
`!entry.kimai_project_id || !entry.kimai_activity_id` skips the entry. -/
def isMapped (e : PendingEntry) : Bool :=
  truthy e.kimai_project_id && truthy e.kimai_activity_id

/-- Observable state of one `importTimeEntries` run: the per-date end-time
map, the success and failure counters, the sequence of `createTimesheet`
calls issued, and the sequence of `markAsImported` calls issued. -/
structure ImportState where
  dateEndTimeMap : Int → Option Int
  importedCount : Nat
  failedCount : Nat
  calls : List KimaiEntry
  marked : List (String × String)

/-- Loop body of KimaiImporter.importTimeEntries for one entry.  `push`
models `api.createTimesheet` for this run: `some kimaiId` on success, `none`
when the call throws.  An unmapped entry is skipped entirely; otherwise the
entry is transformed (updating the per-date map), pushed, and on success
marked as imported with the returned id. -/
def importStep (tz : Int) (push : String → Option String)
    (st : ImportState) (e : PendingEntry) : ImportState :=
  if isMapped e then
    let r := transformEntry tz e st.dateEndTimeMap
    match push e.harvest_id with
    | some kid =>
        { dateEndTimeMap := r.2, importedCount := st.importedCount + 1,
          failedCount := st.failedCount, calls := st.calls ++ [r.1],
          marked := st.marked ++ [(e.harvest_id, kid)] }
    | none =>
        { dateEndTimeMap := r.2, importedCount := st.importedCount,
          failedCount := st.failedCount + 1, calls := st.calls ++ [r.1],
          marked := st.marked }
  else st

def initImportState : ImportState :=
  { dateEndTimeMap := fun _ => none, importedCount := 0, failedCount := 0,
    calls := [], marked := [] }

/-- KimaiImporter.importTimeEntries: sort the pending entries by parsed date
(a stable sort, as in modern JavaScript engines) and process them
sequentially with `importStep`, starting from an empty per-date map. -/
def importTimeEntries (tz : Int) (push : String → Option String)
    (entries : List PendingEntry) : ImportState :=
  (List.insertionSort (fun a b => a.date ≤ b.date) entries).foldl
    (importStep tz push) initImportState

/-! ## Begin-time policy as worded by the spec -/

/-- Modelled from the spec: rules (2) and (3) of the begin-time policy — the
previously derived end time for the entry's calendar date if one exists in
this run, otherwise 09:00:00.000 local time on the entry's date. -/
def specChainOr9 (tz : Int) (e : PendingEntry) (m : Int → Option Int) : Int :=
  match m e.date with
  | some t => t
  | none => e.date * msPerDay + 9 * msPerHour - tz

/-- Modelled from the spec: the full three-rule begin-time policy — (1) if
the creation timestamp exists and its local calendar date equals the entry's
own date, begin is exactly that instant; otherwise rules (2) and (3). -/
def specBegin (tz : Int) (e : PendingEntry) (m : Int → Option Int) : Int :=
  match e.created_at with
  | some c => if localDay tz c = e.date then c else specChainOr9 tz e m
  | none => specChainOr9 tz e m

theorem localDay_date_instant (tz d : Int) (h0 : 0 ≤ tz) (h1 : tz < msPerDay) :
    localDay tz (d * msPerDay) = d := by
  have hpos : (0 : Int) < msPerDay := by norm_num [msPerDay]
  rw [localDay, Int.fdiv_eq_ediv _ (le_of_lt hpos), add_comm, mul_comm,
    Int.add_mul_ediv_left tz d (ne_of_gt hpos), Int.ediv_eq_zero_of_lt h0 h1]
  simp

theorem setHours9_date_instant (tz d : Int) (h0 : 0 ≤ tz) (h1 : tz < msPerDay) :
    setHours9 tz (d * msPerDay) = d * msPerDay + 9 * msPerHour - tz := by
  rw [setHours9, localDay_date_instant tz d h0 h1]

/-- Claim C1: for every pending entry with non-empty destination project and
activity ids, `transformEntry` derives the begin instant by the spec's
three-rule policy (same-date creation timestamp; else previously derived end
time for that date; else 09:00:00.000 local on the entry's date), and the
end instant is begin plus `Math.round(hours * 60)` whole minutes.  Stated
for zero-or-eastward timezone offsets, where parsing the date string lands
on the entry's own local calendar day. -/
theorem claim1_transform_begin_end_policy (tz : Int) (h0 : 0 ≤ tz)
    (h1 : tz < msPerDay) (e : PendingEntry) (m : Int → Option Int)
    (hp : truthy e.kimai_project_id = true)
    (ha : truthy e.kimai_activity_id = true) :
    (transformEntry tz e m).1.begin = specBegin tz e m ∧
    (transformEntry tz e m).1.«end» =
      specBegin tz e m + jsRound (e.hours * 60) * msPerMinute := by
  have hd := localDay_date_instant tz e.date h0 h1
  have h9 := setHours9_date_instant tz e.date h0 h1
  cases hc : e.created_at with
  | none =>
      cases hm : m e.date with
      | none =>
          simp [transformEntry, specBegin, specChainOr9, hc, hm, h9]
      | some t =>
          simp [transformEntry, specBegin, specChainOr9, hc, hm]
  | some c =>
      by_cases hsame : localDay tz c = e.date
      · simp [transformEntry, specBegin, specChainOr9, hc, hd, hsame]
      · cases hm : m e.date with
        | none =>
            simp [transformEntry, specBegin, specChainOr9, hc, hm, hd, hsame, h9]
        | some t =>
            simp [transformEntry, specBegin, specChainOr9, hc, hm, hd, hsame]

def claim1Entry : PendingEntry :=
  { harvest_id := "1001", date := 20157, notes := some "work",
    hours := 3 / 2, created_at := some (20157 * 86400000 + 50400000),
    kimai_project_id := some "7", kimai_activity_id := some "12" }

theorem claim1_transform_witness :
    (0 : Int) ≤ 0 ∧ (0 : Int) < msPerDay ∧
    truthy claim1Entry.kimai_project_id = true ∧
    truthy claim1Entry.kimai_activity_id = true ∧
    ((transformEntry 0 claim1Entry (fun _ => none)).1.begin =
        specBegin 0 claim1Entry (fun _ => none) ∧
      (transformEntry 0 claim1Entry (fun _ => none)).1.«end» =
        specBegin 0 claim1Entry (fun _ => none) +
          jsRound (claim1Entry.hours * 60) * msPerMinute) :=
  ⟨le_refl 0, by norm_num [msPerDay], by decide, by decide,
    claim1_transform_begin_end_policy 0 (le_refl 0) (by norm_num [msPerDay])
      claim1Entry (fun _ => none) (by decide) (by decide)⟩

/-! ## Chaining behaviour of the per-date end-time map -/

/-- Chained begin time: an entry whose creation timestamp is absent or lies
on a different local calendar day takes the previously derived end time
recorded for its date as its begin time, and records its own end time. -/
theorem transform_chained_begin (tz : Int) (h0 : 0 ≤ tz) (h1 : tz < msPerDay)
    (e : PendingEntry) (m : Int → Option Int) (prevEnd : Int)
    (hm : m e.date = some prevEnd)
    (hc : ∀ c, e.created_at = some c → ¬ localDay tz c = e.date) :
    (transformEntry tz e m).1.begin = prevEnd ∧
    (transformEntry tz e m).2 e.date =
      some (prevEnd + jsRound (e.hours * 60) * msPerMinute) := by
  have hd := localDay_date_instant tz e.date h0 h1
  cases hcc : e.created_at with
  | none => constructor <;> simp [transformEntry, hcc, hm]
  | some c =>
      have hne : ¬ localDay tz c = e.date := hc c hcc
      constructor <;> simp [transformEntry, hcc, hm, hd, hne]

/-- Rule-1 evaluation of the transformation: a creation timestamp on the
same local calendar day as the parsed entry date becomes the begin time. -/
theorem transform_rule1 (tz : Int) (e : PendingEntry) (m : Int → Option Int)
    (c : Int) (hc : e.created_at = some c)
    (hsame : localDay tz c = localDay tz (e.date * msPerDay)) :
    (transformEntry tz e m).1.begin = c ∧
    (transformEntry tz e m).1.«end» = c + jsRound (e.hours * 60) * msPerMinute ∧
    (transformEntry tz e m).2 =
      fun d => if d = e.date
        then some (c + jsRound (e.hours * 60) * msPerMinute) else m d := by
  refine ⟨?_, ?_, ?_⟩ <;> simp [transformEntry, hc, hsame]

/-- Unmapped entries are no-ops for the import loop, so a fold over any
entry list equals the fold over the list with unmapped entries removed. -/
theorem foldl_importStep_filter (tz : Int) (push : String → Option String)
    (st : ImportState) (entries : List PendingEntry) :
    entries.foldl (importStep tz push) st =
      (entries.filter (fun e => isMapped e)).foldl (importStep tz push) st := by
  induction entries generalizing st with
  | nil => rfl
  | cons e rest ih =>
      rw [List.foldl_cons, List.filter_cons]
      by_cases h : isMapped e = true
      · simp only [h, if_true, List.foldl_cons]
        exact ih _
      · have hskip : importStep tz push st e = st := by
          unfold importStep
          rw [if_neg h]
        simp only [h, if_false, Bool.false_eq_true, hskip]
        exact ih st

/-- First same-date entries of the two-entry overlap scenario. -/
def claim2EntryA : PendingEntry :=
  { harvest_id := "A", date := 0, notes := none, hours := 1,
    created_at := some 50400000, kimai_project_id := some "1",
    kimai_activity_id := some "2" }

/-- Second same-date entry, with an earlier same-date creation timestamp. -/
def claim2EntryB : PendingEntry :=
  { harvest_id := "B", date := 0, notes := none, hours := 2,
    created_at := some 46800000, kimai_project_id := some "1",
    kimai_activity_id := some "2" }

/-- Claim C2 as stated is false: two entries on the same calendar date whose
creation timestamps both lie on that date are pushed with overlapping
intervals.  Here the run pushes [14:00, 15:00) and then [13:00, 15:00) on
the same date: the second begins before the first ends. -/
theorem claim2_counterexample :
    claim2EntryA.date = claim2EntryB.date ∧
    ((importTimeEntries 0 (fun _ => some "9")
        [claim2EntryA, claim2EntryB]).calls.map
      (fun c => (c.begin, c.«end»))) =
        [(50400000, 54000000), (46800000, 54000000)] ∧
    (46800000 : Int) < 50400000 + 3600000 ∧
    (50400000 : Int) < 46800000 + 7200000 := by
  have hrA : jsRound (claim2EntryA.hours * 60) = 60 := by
    norm_num [claim2EntryA, jsRound]
    decide
  have hrB : jsRound (claim2EntryB.hours * 60) = 120 := by
    norm_num [claim2EntryB, jsRound]
    decide
  have hsort : List.insertionSort
      (fun a b : PendingEntry => a.date ≤ b.date)
      [claim2EntryA, claim2EntryB] = [claim2EntryA, claim2EntryB] := by
    simp [List.insertionSort, List.orderedInsert, claim2EntryA, claim2EntryB]
  have hstep : ∀ (st : ImportState) (e : PendingEntry), isMapped e = true →
      importStep 0 (fun _ => some "9") st e =
        { dateEndTimeMap := (transformEntry 0 e st.dateEndTimeMap).2,
          importedCount := st.importedCount + 1,
          failedCount := st.failedCount,
          calls := st.calls ++ [(transformEntry 0 e st.dateEndTimeMap).1],
          marked := st.marked ++ [(e.harvest_id, "9")] } := by
    intro st e h
    unfold importStep
    rw [if_pos h]
  have htA := transform_rule1 0 claim2EntryA initImportState.dateEndTimeMap
    50400000 rfl (by decide)
  have htB := transform_rule1 0 claim2EntryB
    (transformEntry 0 claim2EntryA initImportState.dateEndTimeMap).2
    46800000 rfl (by decide)
  refine ⟨rfl, ?_, by norm_num, by norm_num⟩
  rw [importTimeEntries, hsort, List.foldl_cons, List.foldl_cons,
    List.foldl_nil, hstep initImportState claim2EntryA (by decide)]
  rw [hstep _ claim2EntryB (by decide)]
  simp only [List.nil_append, List.map_append, List.map_cons, List.map_nil,
    List.singleton_append, List.cons_append]
  rw [htA.1, htA.2.1, htB.1, htB.2.1, hrA, hrB]
  norm_num [msPerMinute, initImportState]

/-- Claim C2 amended: within one run, a same-date entry that lacks a
same-date creation timestamp begins exactly at the previously derived end
time for that calendar date (no gap, no overlap against the interval ending
there), and records its own end time for the next same-date entry.  Entries
that do carry a same-date creation timestamp bypass the chain and may
overlap earlier intervals, as the counterexample shows. -/
theorem claim2_same_day_chain (tz : Int) (h0 : 0 ≤ tz) (h1 : tz < msPerDay)
    (e : PendingEntry) (m : Int → Option Int) (prevEnd : Int)
    (hm : m e.date = some prevEnd)
    (hc : ∀ c, e.created_at = some c → ¬ localDay tz c = e.date) :
    (transformEntry tz e m).1.begin = prevEnd ∧
    (transformEntry tz e m).2 e.date =
      some (prevEnd + jsRound (e.hours * 60) * msPerMinute) :=
  transform_chained_begin tz h0 h1 e m prevEnd hm hc

/-- Chained entry used to witness the amended claim C2. -/
def claim2ChainEntry : PendingEntry :=
  { harvest_id := "C", date := 0, notes := none, hours := 1 / 2,
    created_at := none, kimai_project_id := some "1",
    kimai_activity_id := some "2" }

/-- Map state after an earlier same-date entry ended at 15:00. -/
def claim2ChainMap : Int → Option Int :=
  fun d => if d = 0 then some 54000000 else none

theorem claim2_same_day_chain_witness :
    (transformEntry 0 claim2ChainEntry claim2ChainMap).1.begin = 54000000 ∧
    (transformEntry 0 claim2ChainEntry claim2ChainMap).2
        claim2ChainEntry.date =
      some (54000000 + jsRound (claim2ChainEntry.hours * 60) * msPerMinute) :=
  claim2_same_day_chain 0 (le_refl 0) (by norm_num [msPerDay])
    claim2ChainEntry claim2ChainMap 54000000 rfl
    (fun c h => by simp [claim2ChainEntry] at h)

/-- Claim C8: a pending entry missing either destination mapping is excluded
from the transfer: the run never submits it, never marks it imported, and
counts it neither as a success nor as a failure — the whole run state is as
if unmapped entries were removed from the input. -/
theorem claim8_unmapped_excluded (tz : Int) (push : String → Option String)
    (st : ImportState) (entries : List PendingEntry) :
    entries.foldl (importStep tz push) st =
      (entries.filter (fun e => isMapped e)).foldl (importStep tz push) st ∧
    importTimeEntries tz push entries =
      ((List.insertionSort (fun a b => a.date ≤ b.date) entries).filter
          (fun e => isMapped e)).foldl (importStep tz push) initImportState :=
  ⟨foldl_importStep_filter tz push st entries,
    foldl_importStep_filter tz push initImportState _⟩

/-- Claim C10: the per-date end-time map is updated at transformation time,
before the push is attempted — the map after processing a mapped entry does
not depend on the push outcome, it records the entry's derived end time
under its date, and a subsequent same-date entry falling under the chaining
rule begins exactly at that end time even if the push failed. -/
theorem claim10_map_updated_before_push (tz : Int) (h0 : 0 ≤ tz)
    (h1 : tz < msPerDay) (push1 push2 : String → Option String)
    (st : ImportState) (e e2 : PendingEntry) (hmapped : isMapped e = true)
    (hdate : e2.date = e.date)
    (hc : ∀ c, e2.created_at = some c → ¬ localDay tz c = e2.date) :
    (importStep tz push1 st e).dateEndTimeMap =
      (importStep tz push2 st e).dateEndTimeMap ∧
    (importStep tz push1 st e).dateEndTimeMap e.date =
      some ((transformEntry tz e st.dateEndTimeMap).1.«end») ∧
    (transformEntry tz e2 (importStep tz push1 st e).dateEndTimeMap).1.begin =
      (transformEntry tz e st.dateEndTimeMap).1.«end» := by
  have hmap : ∀ p : String → Option String,
      (importStep tz p st e).dateEndTimeMap =
        (transformEntry tz e st.dateEndTimeMap).2 := by
    intro p
    cases hp : p e.harvest_id <;> simp [importStep, hmapped, hp]
  have hset : (transformEntry tz e st.dateEndTimeMap).2 e.date =
      some ((transformEntry tz e st.dateEndTimeMap).1.«end») := by
    simp [transformEntry]
  have hchain := transform_chained_begin tz h0 h1 e2
    (importStep tz push1 st e).dateEndTimeMap
    ((transformEntry tz e st.dateEndTimeMap).1.«end»)
    (by rw [hdate, hmap push1, hset]) hc
  exact ⟨(hmap push1).trans (hmap push2).symm,
    by rw [hmap push1, hset], hchain.1⟩

/-- Entries used to witness claim C10: a mapped first entry whose push
fails, and a same-date successor lacking a same-date creation timestamp. -/
def claim10EntryA : PendingEntry :=
  { harvest_id := "A", date := 0, notes := none, hours := 1,
    created_at := some 50400000, kimai_project_id := some "1",
    kimai_activity_id := some "2" }

/-- Successor entry for the claim C10 witness. -/
def claim10EntryB : PendingEntry :=
  { harvest_id := "B", date := 0, notes := none, hours := 2,
    created_at := none, kimai_project_id := some "1",
    kimai_activity_id := some "2" }

theorem claim10_witness :
    (importStep 0 (fun _ => none) initImportState claim10EntryA).dateEndTimeMap =
      (importStep 0 (fun _ => some "9") initImportState
        claim10EntryA).dateEndTimeMap ∧
    (importStep 0 (fun _ => none) initImportState
        claim10EntryA).dateEndTimeMap claim10EntryA.date =
      some ((transformEntry 0 claim10EntryA
        initImportState.dateEndTimeMap).1.«end») ∧
    (transformEntry 0 claim10EntryB
        (importStep 0 (fun _ => none) initImportState
          claim10EntryA).dateEndTimeMap).1.begin =
      (transformEntry 0 claim10EntryA
        initImportState.dateEndTimeMap).1.«end» :=
  claim10_map_updated_before_push 0 (le_refl 0) (by norm_num [msPerDay])
    (fun _ => none) (fun _ => some "9") initImportState claim10EntryA
    claim10EntryB (by decide) rfl
    (fun c h => by simp [claim10EntryB] at h)

/-! ## Local store (src/db/storage.js, Storage)

The `time_entries` table is a list of rows; `harvest_id` is UNIQUE by
schema, but closure properties below are stated without assuming it unless
needed.  A Harvest API entry carries its nested `client.name` /
`project.name` / `task.name` strings as NULLable values (`entry.client?.name`
is undefined when the nested object is missing); `id` is carried already
stringified (`entry.id.toString()`, injective on source ids). -/

structure HarvestEntry where
  id : String
  spent_date : String
  client : Option String
  project : Option String
  task : Option String
  notes : Option String
  hours : ℚ
  started_time : Option String
  ended_time : Option String
  created_at : Option String
deriving DecidableEq

/-- Row of the `time_entries` table. -/
structure StoredEntry where
  harvest_id : String
  kimai_id : Option String
  date : String
  client : String
  project : String
  task : String
  notes : String
  hours : ℚ
  started_time : Option String
  ended_time : Option String
  imported : Nat
  created_at : String
deriving DecidableEq

/-- SELECT of the row with a given `harvest_id` (first match). -/
def lookupStore (store : List StoredEntry) (hid : String) : Option StoredEntry :=
  store.find? (fun r => r.harvest_id = hid)

/-- Negation of the `hasChanged` comparison of storeHarvestEntries: the
stored row agrees with the fetched entry on all eight compared fields,
with the same `|| ''` normalizations the source applies. -/
def matchesRow (r : StoredEntry) (e : HarvestEntry) : Bool :=
  decide (r.date = e.spent_date ∧ r.client = jsOrElse e.client "" ∧
    r.project = jsOrElse e.project "" ∧ r.task = jsOrElse e.task "" ∧
    r.notes = jsOrElse e.notes "" ∧ r.hours = e.hours ∧
    r.started_time = e.started_time ∧ r.ended_time = e.ended_time)

/-- Row built by the INSERT statement of storeHarvestEntries: `imported`
defaults to 0, no kimai id, `created_at` falls back to the current time. -/
def insertRow (now : String) (e : HarvestEntry) : StoredEntry :=
  { harvest_id := e.id, kimai_id := none, date := e.spent_date,
    client := jsOrElse e.client "", project := jsOrElse e.project "",
    task := jsOrElse e.task "", notes := jsOrElse e.notes "",
    hours := e.hours, started_time := e.started_time,
    ended_time := e.ended_time, imported := 0,
    created_at := jsOrElse e.created_at now }

/-- Effect of the UPDATE statement of storeHarvestEntries on a row: the
eight comparable fields are overwritten, everything else is kept. -/
def applyUpdate (e : HarvestEntry) (r : StoredEntry) : StoredEntry :=
  { r with
    date := e.spent_date, client := jsOrElse e.client "",
    project := jsOrElse e.project "", task := jsOrElse e.task "",
    notes := jsOrElse e.notes "", hours := e.hours,
    started_time := e.started_time, ended_time := e.ended_time }

/-- Insert loop of storeHarvestEntries: each new entry is appended unless a
row with its `harvest_id` already exists (UNIQUE constraint violation, the
per-row error path); returns the store, the inserted count and the insert
error count. -/
def insertPhase (now : String) :
    List StoredEntry → List HarvestEntry → List StoredEntry × Nat × Nat
  | store, [] => (store, 0, 0)
  | store, e :: rest =>
      if (lookupStore store e.id).isSome then
        let r := insertPhase now store rest
        (r.1, r.2.1, r.2.2 + 1)
      else
        let r := insertPhase now (store ++ [insertRow now e]) rest
        (r.1, r.2.1 + 1, r.2.2)

/-- One UPDATE statement: rewrite every row whose `harvest_id` matches. -/
def updateOne (e : HarvestEntry) (store : List StoredEntry) : List StoredEntry :=
  store.map (fun r => if r.harvest_id = e.id then applyUpdate e r else r)

/-- Update loop of storeHarvestEntries; the per-statement success callback
increments the updated count unconditionally (an UPDATE whose WHERE clause
matches nothing still succeeds). -/
def updatePhase : List StoredEntry → List HarvestEntry → List StoredEntry × Nat
  | store, [] => (store, 0)
  | store, e :: rest =>
      let r := updatePhase (updateOne e store) rest
      (r.1, r.2 + 1)

/-- Counts reported by storeHarvestEntries; `insertErrors`/`updateErrors`
mirror the insertErrorCount/updateErrorCount variables (logged, not
returned).  `updateErrors` is identically 0 in the model: the UPDATE
touches no UNIQUE column, so it cannot fail a constraint. -/
structure StoreCounts where
  inserted : Nat
  updated : Nat
  unchanged : Nat
  insertErrors : Nat
  updateErrors : Nat
deriving DecidableEq

/-- Classification of a fetched entry with no stored row: new. -/
def classifyNew (store : List StoredEntry) (e : HarvestEntry) : Bool :=
  (lookupStore store e.id).isNone

/-- Classification of a fetched entry whose stored row differs: changed. -/
def classifyChanged (store : List StoredEntry) (e : HarvestEntry) : Bool :=
  match lookupStore store e.id with
  | some r => ! matchesRow r e
  | none => false

/-- Classification of a fetched entry whose stored row agrees: unchanged. -/
def classifyUnchanged (store : List StoredEntry) (e : HarvestEntry) : Bool :=
  match lookupStore store e.id with
  | some r => matchesRow r e
  | none => false

/-- Storage.storeHarvestEntries: early return on an empty batch; otherwise
classify each entry against the snapshot of existing rows, run the insert
loop on the new entries, then the update loop on the changed entries, and
report the counts. -/
def storeHarvestEntries (now : String) (store : List StoredEntry)
    (entries : List HarvestEntry) : List StoredEntry × StoreCounts :=
  if entries.isEmpty then (store, ⟨0, 0, 0, 0, 0⟩)
  else
    let news := entries.filter (classifyNew store)
    let upds := entries.filter (classifyChanged store)
    let unch := entries.filter (classifyUnchanged store)
    let ins := insertPhase now store news
    let upd := updatePhase ins.1 upds
    (upd.1, ⟨ins.2.1, upd.2, unch.length, ins.2.2, 0⟩)

/-- Storage.markAsImported: set `imported = 1` and the kimai id, in the same
UPDATE, on every row with the given `harvest_id`. -/
def markAsImported (store : List StoredEntry) (hid kid : String) :
    List StoredEntry :=
  store.map (fun r =>
    if r.harvest_id = hid then { r with imported := 1, kimai_id := some kid }
    else r)

/-! ## Task matching (Storage.matchTasksWithActivities) -/

/-- Row of the `tasks` table (`id` is the INTEGER PRIMARY KEY). -/
structure TaskRow where
  id : Nat
  harvest_id : String
  name : String
  kimai_project_id : Option String
  kimai_activity_id : Option String
  kimai_activity_name : Option String
deriving DecidableEq

/-- Row of the `tasks_kimai` table as selected for matching (`task_name` is
the stored display name, parent-prefixed when a parent title exists). -/
structure KimaiActivityRow where
  kimai_project_id : Option String
  kimai_activity_id : String
  task_name : String
deriving DecidableEq

/-- Name normalization used by the match: `.trim().toLowerCase()` (modelled
with Lean's trim and ASCII lowercasing). -/
def normName (s : String) : String := s.trim.toLower

/-- The `harvestTasks.find(...)` call: first task of the snapshot whose
normalized name equals the activity's normalized display name. -/
def findMatchingTask (tasks : List TaskRow) (a : KimaiActivityRow) :
    Option TaskRow :=
  tasks.find? (fun t => normName t.name = normName a.task_name)

/-- Fields written by the matching UPDATE onto the matched task row. -/
def setMapping (r : TaskRow) (a : KimaiActivityRow) : TaskRow :=
  { r with
    kimai_project_id := a.kimai_project_id,
    kimai_activity_id := some a.kimai_activity_id,
    kimai_activity_name := some a.task_name }

/-- Loop body over one Kimai activity: search the task snapshot, and on a
match update the current table row with that id and bump the matched count
(the unmatched count is maintained as length minus matched). -/
def matchStep (snapshot : List TaskRow) (st : List TaskRow × Nat)
    (a : KimaiActivityRow) : List TaskRow × Nat :=
  match findMatchingTask snapshot a with
  | some t =>
      (st.1.map (fun r => if r.id = t.id then setMapping r a else r), st.2 + 1)
  | none => st

/-- Storage.matchTasksWithActivities: with an empty activity table or an
empty task table it returns counts (0, 0) without touching the store;
otherwise it folds over the activities against the fixed task snapshot,
and reports matched and `tasks.length - matched` (which can go negative
when several activities match the same task). -/
def matchTasksWithActivities (tasks : List TaskRow)
    (acts : List KimaiActivityRow) : List TaskRow × Nat × Int :=
  if acts.isEmpty then (tasks, 0, 0)
  else if tasks.isEmpty then (tasks, 0, 0)
  else
    let res := acts.foldl (matchStep tasks) (tasks, 0)
    (res.1, res.2, (tasks.length : Int) - (res.2 : Int))

/-! ## Pending-entry selection (Storage.getAllPendingEntries) -/

/-- Row of the pending-entry query: a `time_entries` row joined (by task
name) with the mapping columns of the `tasks` table. -/
structure PendingRow where
  entry : StoredEntry
  kimai_project_id : Option String
  kimai_activity_id : Option String
deriving DecidableEq

/-- Storage.getAllPendingEntries: rows with `imported = 0`, LEFT JOINed with
`tasks` on `te.task = t.name` (an unmatched entry row survives with NULL
mapping columns; an entry row matching several task rows is duplicated, as
in SQL). -/
def getAllPendingEntries (store : List StoredEntry) (tasks : List TaskRow) :
    List PendingRow :=
  (store.filter (fun r => r.imported == 0)).flatMap (fun r =>
    match tasks.filter (fun t => t.name = r.task) with
    | [] => [⟨r, none, none⟩]
    | ts => ts.map (fun t => ⟨r, t.kimai_project_id, t.kimai_activity_id⟩))

/-! ## Counting properties of storeHarvestEntries -/

theorem insertPhase_cons_dup (now : String) (store : List StoredEntry)
    (e : HarvestEntry) (rest : List HarvestEntry)
    (h : (lookupStore store e.id).isSome = true) :
    insertPhase now store (e :: rest) =
      ((insertPhase now store rest).1, (insertPhase now store rest).2.1,
        (insertPhase now store rest).2.2 + 1) := by
  simp [insertPhase, h]

theorem insertPhase_cons_new (now : String) (store : List StoredEntry)
    (e : HarvestEntry) (rest : List HarvestEntry)
    (h : ¬ (lookupStore store e.id).isSome = true) :
    insertPhase now store (e :: rest) =
      ((insertPhase now (store ++ [insertRow now e]) rest).1,
        (insertPhase now (store ++ [insertRow now e]) rest).2.1 + 1,
        (insertPhase now (store ++ [insertRow now e]) rest).2.2) := by
  simp [insertPhase, h]

theorem updatePhase_cons (store : List StoredEntry) (e : HarvestEntry)
    (rest : List HarvestEntry) :
    updatePhase store (e :: rest) =
      ((updatePhase (updateOne e store) rest).1,
        (updatePhase (updateOne e store) rest).2 + 1) := by
  simp [updatePhase]

theorem insertPhase_counts (now : String) (news : List HarvestEntry) :
    ∀ store, (insertPhase now store news).2.1 + (insertPhase now store news).2.2
      = news.length := by
  induction news with
  | nil => intro store; rfl
  | cons e rest ih =>
      intro store
      by_cases h : (lookupStore store e.id).isSome = true
      · rw [insertPhase_cons_dup now store e rest h]
        have := ih store
        simp only [List.length_cons]
        omega
      · rw [insertPhase_cons_new now store e rest h]
        have := ih (store ++ [insertRow now e])
        simp only [List.length_cons]
        omega

theorem updatePhase_count (upds : List HarvestEntry) :
    ∀ store, (updatePhase store upds).2 = upds.length := by
  induction upds with
  | nil => intro store; rfl
  | cons e rest ih =>
      intro store
      rw [updatePhase_cons, ih (updateOne e store)]
      simp

theorem classify_length (store : List StoredEntry) (entries : List HarvestEntry) :
    (entries.filter (classifyNew store)).length +
      (entries.filter (classifyChanged store)).length +
      (entries.filter (classifyUnchanged store)).length = entries.length := by
  induction entries with
  | nil => rfl
  | cons e rest ih =>
      rw [List.filter_cons, List.filter_cons, List.filter_cons]
      cases hl : lookupStore store e.id with
      | none =>
          have h1 : classifyNew store e = true := by simp [classifyNew, hl]
          have h2 : classifyChanged store e = false := by simp [classifyChanged, hl]
          have h3 : classifyUnchanged store e = false := by simp [classifyUnchanged, hl]
          simp only [h1, h2, h3, if_true, if_false, Bool.false_eq_true,
            List.length_cons]
          omega
      | some r =>
          have h1 : classifyNew store e = false := by simp [classifyNew, hl]
          cases hm : matchesRow r e with
          | true =>
              have h2 : classifyChanged store e = false := by
                simp [classifyChanged, hl, hm]
              have h3 : classifyUnchanged store e = true := by
                simp [classifyUnchanged, hl, hm]
              simp only [h1, h2, h3, if_true, if_false, Bool.false_eq_true,
                List.length_cons]
              omega
          | false =>
              have h2 : classifyChanged store e = true := by
                simp [classifyChanged, hl, hm]
              have h3 : classifyUnchanged store e = false := by
                simp [classifyUnchanged, hl, hm]
              simp only [h1, h2, h3, if_true, if_false, Bool.false_eq_true,
                List.length_cons]
              omega

/-- Claim C5: the reported counts partition the batch — inserted + updated +
unchanged equals the batch size minus the hard-failed rows, which are
themselves counted (insert errors from UNIQUE violations, update errors),
never dropped; and an empty input batch is a no-op returning zero counts. -/
theorem claim5_counts_partition (now : String) (store : List StoredEntry)
    (entries : List HarvestEntry) :
    ((storeHarvestEntries now store entries).2.inserted +
        (storeHarvestEntries now store entries).2.updated +
        (storeHarvestEntries now store entries).2.unchanged +
        (storeHarvestEntries now store entries).2.insertErrors +
        (storeHarvestEntries now store entries).2.updateErrors
      = entries.length) ∧
    storeHarvestEntries now store [] = (store, ⟨0, 0, 0, 0, 0⟩) := by
  constructor
  · by_cases he : entries.isEmpty = true
    · have : entries = [] := List.isEmpty_iff.mp he
      subst this
      simp [storeHarvestEntries]
    · rw [storeHarvestEntries, if_neg he]
      simp only []
      have hins := insertPhase_counts now (entries.filter (classifyNew store)) store
      have hupd := updatePhase_count (entries.filter (classifyChanged store))
        (insertPhase now store (entries.filter (classifyNew store))).1
      have hcls := classify_length store entries
      omega
  · rfl

/-! ## Task matching counts and row characterization -/

theorem matchFold_count (tasks : List TaskRow) (acts : List KimaiActivityRow) :
    ∀ (cur : List TaskRow) (n : Nat),
      (acts.foldl (matchStep tasks) (cur, n)).2 =
        n + acts.countP (fun a => (findMatchingTask tasks a).isSome) := by
  induction acts with
  | nil => intro cur n; simp
  | cons a rest ih =>
      intro cur n
      rw [List.foldl_cons, List.countP_cons]
      cases hf : findMatchingTask tasks a with
      | none =>
          have hstep : matchStep tasks (cur, n) a = (cur, n) := by
            simp [matchStep, hf]
          rw [hstep, ih]
          simp [hf]
      | some t =>
          have hstep : matchStep tasks (cur, n) a =
              (cur.map (fun r => if r.id = t.id then setMapping r a else r),
                n + 1) := by
            simp [matchStep, hf]
          rw [hstep, ih]
          simp [hf]
          omega

/-- Task used in the claim C7 counterexample and witness. -/
def claim7Task : TaskRow :=
  { id := 1, harvest_id := "t1", name := "Design Review",
    kimai_project_id := none, kimai_activity_id := none,
    kimai_activity_name := none }

/-- Claim C7 as stated is false: with a non-empty task catalog and an empty
activity catalog, no task is updated (the result equals the input), so
unmatched should be 1 - 0 = 1, but matchTasksWithActivities takes its
empty-catalog early return and reports unmatched = 0. -/
theorem claim7_counterexample :
    (matchTasksWithActivities [claim7Task] []).1 = [claim7Task] ∧
    (matchTasksWithActivities [claim7Task] []).2.1 = 0 ∧
    (matchTasksWithActivities [claim7Task] []).2.2 = 0 ∧
    ¬ ((matchTasksWithActivities [claim7Task] []).2.2 =
        (([claim7Task] : List TaskRow).length : Int) - 0) := by
  refine ⟨rfl, rfl, rfl, ?_⟩
  decide

/-- Claim C7 amended: when both catalogs are non-empty, matched is the
number of successful match-update operations — one per activity whose
catalog search finds a task, so a task matched by several activities is
counted once per activity — and unmatched is the task count minus that
number (an integer, possibly negative).  With an empty catalog on either
side the function instead early-returns counts (0, 0). -/
theorem claim7_amended_counts (tasks : List TaskRow)
    (acts : List KimaiActivityRow) (ht : ¬ tasks.isEmpty = true)
    (ha : ¬ acts.isEmpty = true) :
    (matchTasksWithActivities tasks acts).2.1 =
      acts.countP (fun a => (findMatchingTask tasks a).isSome) ∧
    (matchTasksWithActivities tasks acts).2.2 =
      (tasks.length : Int) -
        (acts.countP (fun a => (findMatchingTask tasks a).isSome) : Int) := by
  rw [matchTasksWithActivities, if_neg ha, if_neg ht]
  simp only []
  rw [matchFold_count tasks acts tasks 0]
  simp

/-- Activity used in the claim C7 witness (normalized-name match for
claim7Task). -/
def claim7Act : KimaiActivityRow :=
  { kimai_project_id := some "3", kimai_activity_id := "9",
    task_name := " design review " }

theorem claim7_amended_witness :
    (matchTasksWithActivities [claim7Task] [claim7Act]).2.1 =
      [claim7Act].countP
        (fun a => (findMatchingTask [claim7Task] a).isSome) ∧
    (matchTasksWithActivities [claim7Task] [claim7Act]).2.2 =
      (([claim7Task] : List TaskRow).length : Int) -
        ([claim7Act].countP
          (fun a => (findMatchingTask [claim7Task] a).isSome) : Int) :=
  claim7_amended_counts [claim7Task] [claim7Act] (by decide) (by decide)

/-- Loop step of the auxiliary last-match accumulator: activity `a`
overrides the accumulator when its catalog search first-matches the task
row with id `i`. -/
def lastHitStep (tasks : List TaskRow) (i : Nat)
    (acc : Option KimaiActivityRow) (a : KimaiActivityRow) :
    Option KimaiActivityRow :=
  if (findMatchingTask tasks a).any (fun t => t.id = i) then some a else acc

/-- Last activity in catalog order whose search first-matches the task row
with id `i`, if any. -/
def lastHit (tasks : List TaskRow) (acts : List KimaiActivityRow) (i : Nat) :
    Option KimaiActivityRow :=
  acts.foldl (lastHitStep tasks i) none

theorem foldl_lastHitStep_acc (tasks : List TaskRow) (i : Nat)
    (acts : List KimaiActivityRow) :
    ∀ acc, acts.foldl (lastHitStep tasks i) acc = (lastHit tasks acts i).or acc := by
  induction acts with
  | nil => intro acc; simp [lastHit]
  | cons a rest ih =>
      intro acc
      rw [List.foldl_cons, ih (lastHitStep tasks i acc a)]
      have hr : lastHit tasks (a :: rest) i =
          (lastHit tasks rest i).or (lastHitStep tasks i none a) := by
        rw [lastHit, List.foldl_cons, ih (lastHitStep tasks i none a)]
      rw [hr]
      cases hlast : lastHit tasks rest i with
      | some x => rfl
      | none =>
          unfold lastHitStep
          by_cases h : (findMatchingTask tasks a).any (fun t => t.id = i) = true
          · rw [if_pos h, if_pos h]
            rfl
          · rw [if_neg h, if_neg h]
            rfl

theorem lastHit_cons (tasks : List TaskRow) (a : KimaiActivityRow)
    (rest : List KimaiActivityRow) (i : Nat) :
    lastHit tasks (a :: rest) i =
      (lastHit tasks rest i).or (lastHitStep tasks i none a) := by
  rw [lastHit, List.foldl_cons, foldl_lastHitStep_acc]

theorem setMapping_id (r : TaskRow) (a : KimaiActivityRow) :
    (setMapping r a).id = r.id := rfl

theorem setMapping_setMapping (r : TaskRow) (a b : KimaiActivityRow) :
    setMapping (setMapping r a) b = setMapping r b := rfl

theorem matchFold_tasks (tasks : List TaskRow) (acts : List KimaiActivityRow) :
    ∀ (cur : List TaskRow) (n : Nat),
      (acts.foldl (matchStep tasks) (cur, n)).1 =
        cur.map (fun r =>
          match lastHit tasks acts r.id with
          | some a => setMapping r a
          | none => r) := by
  induction acts with
  | nil =>
      intro cur n
      simp [lastHit]
  | cons a rest ih =>
      intro cur n
      rw [List.foldl_cons]
      cases hf : findMatchingTask tasks a with
      | none =>
          have hstep : matchStep tasks (cur, n) a = (cur, n) := by
            simp [matchStep, hf]
          rw [hstep, ih]
          apply List.map_congr_left
          intro r hr
          rw [lastHit_cons]
          unfold lastHitStep
          rw [hf]
          simp
      | some t =>
          have hstep : matchStep tasks (cur, n) a =
              (cur.map (fun r => if r.id = t.id then setMapping r a else r),
                n + 1) := by
            simp [matchStep, hf]
          rw [hstep, ih, List.map_map]
          apply List.map_congr_left
          intro r hr
          rw [lastHit_cons]
          unfold lastHitStep
          rw [hf]
          simp only [Function.comp_apply, Option.any_some, decide_eq_true_eq]
          by_cases hid : r.id = t.id
          · have h1 : (if r.id = t.id then setMapping r a else r) =
                setMapping r a := if_pos hid
            have h2 : (if t.id = r.id then (some a : Option KimaiActivityRow)
                else none) = some a := if_pos hid.symm
            rw [h1, h2, setMapping_id]
            cases hlast : lastHit tasks rest r.id with
            | some b => simp [Option.or, setMapping_setMapping]
            | none => simp [Option.or]
          · have h1 : (if r.id = t.id then setMapping r a else r) = r :=
              if_neg hid
            have h2 : (if t.id = r.id then (some a : Option KimaiActivityRow)
                else none) = none := if_neg (fun hh => hid hh.symm)
            rw [h1, h2]
            cases hlast : lastHit tasks rest r.id with
            | some b => simp [Option.or]
            | none => simp [Option.or]

/-- Claim C6: the matching step rewrites each task row according to the
activities whose catalog search — first task with normalized name (trimmed,
case-folded) equal to the activity's normalized display name — lands on
that row: the last such activity's project id, activity id and display name
are written onto the row, and rows first-matched by no activity are left
unchanged (so unmatched activities are skipped, and each activity updates
only the first qualifying task). -/
theorem claim6_first_match_written (tasks : List TaskRow)
    (acts : List KimaiActivityRow) :
    (matchTasksWithActivities tasks acts).1 =
      tasks.map (fun r =>
        match lastHit tasks acts r.id with
        | some a => setMapping r a
        | none => r) := by
  rw [matchTasksWithActivities]
  by_cases h1 : acts.isEmpty = true
  · rw [if_pos h1]
    have ha : acts = [] := List.isEmpty_iff.mp h1
    subst ha
    simp [lastHit]
  · rw [if_neg h1]
    by_cases h2 : tasks.isEmpty = true
    · rw [if_pos h2]
      have ht : tasks = [] := List.isEmpty_iff.mp h2
      subst ht
      simp
    · rw [if_neg h2]
      exact matchFold_tasks tasks acts tasks 0

/-! ## Frame properties of the store operations -/

theorem lookupStore_eq_some (store : List StoredEntry) (hid : String)
    (r : StoredEntry) (h : lookupStore store hid = some r) :
    r.harvest_id = hid := by
  simpa using List.find?_some h

theorem nodup_map_mem_inj {α : Type} {β : Type} (f : α → β) (l : List α)
    (h : (l.map f).Nodup) :
    ∀ a ∈ l, ∀ b ∈ l, f a = f b → a = b := by
  induction l with
  | nil => intro a ha; exact absurd ha (List.not_mem_nil a)
  | cons x rest ih =>
      rw [List.map_cons, List.nodup_cons] at h
      intro a ha b hb hf
      rcases List.mem_cons.mp ha with rfl | ha'
      · rcases List.mem_cons.mp hb with rfl | hb'
        · rfl
        · exact absurd (by rw [hf]; exact List.mem_map_of_mem f hb') h.1
      · rcases List.mem_cons.mp hb with rfl | hb'
        · exact absurd (by rw [← hf]; exact List.mem_map_of_mem f ha') h.1
        · exact ih h.2 a ha' b hb' hf

theorem insertPhase_mem (now : String) (news : List HarvestEntry) :
    ∀ store, ∀ r' ∈ (insertPhase now store news).1,
      r' ∈ store ∨
        ∃ e ∈ news, r' = insertRow now e ∧ lookupStore store e.id = none := by
  induction news with
  | nil => intro store r' h; exact Or.inl h
  | cons e rest ih =>
      intro store r' h
      by_cases hc : (lookupStore store e.id).isSome = true
      · rw [insertPhase_cons_dup now store e rest hc] at h
        rcases ih store r' h with h1 | ⟨e', he', heq, hl⟩
        · exact Or.inl h1
        · exact Or.inr ⟨e', List.mem_cons_of_mem e he', heq, hl⟩
      · rw [insertPhase_cons_new now store e rest hc] at h
        rcases ih (store ++ [insertRow now e]) r' h with h1 | ⟨e', he', heq, hl⟩
        · rcases List.mem_append.mp h1 with h2 | h2
          · exact Or.inl h2
          · have heq2 : r' = insertRow now e := by simpa using h2
            refine Or.inr ⟨e, List.mem_cons_self e rest, heq2, ?_⟩
            rw [← Option.not_isSome_iff_eq_none]
            exact hc
        · have hlook : lookupStore store e'.id = none := by
            rw [lookupStore] at hl ⊢
            rw [List.find?_append] at hl
            cases hfa : List.find?
                (fun r => decide (r.harvest_id = e'.id)) store with
            | none => rfl
            | some x => rw [hfa] at hl; simp at hl
          exact Or.inr ⟨e', List.mem_cons_of_mem e he', heq, hlook⟩

theorem updateOne_preserves (e : HarvestEntry) (r : StoredEntry) :
    ((if r.harvest_id = e.id then applyUpdate e r else r).harvest_id
        = r.harvest_id) ∧
    ((if r.harvest_id = e.id then applyUpdate e r else r).imported
        = r.imported) ∧
    ((if r.harvest_id = e.id then applyUpdate e r else r).kimai_id
        = r.kimai_id) ∧
    ((if r.harvest_id = e.id then applyUpdate e r else r).created_at
        = r.created_at) := by
  by_cases h : r.harvest_id = e.id <;> simp [applyUpdate, h]

theorem updatePhase_mem (upds : List HarvestEntry) :
    ∀ store, ∀ r' ∈ (updatePhase store upds).1,
      ∃ r ∈ store, r.harvest_id = r'.harvest_id ∧ r'.imported = r.imported ∧
        r'.kimai_id = r.kimai_id ∧ r'.created_at = r.created_at := by
  induction upds with
  | nil =>
      intro store r' h
      exact ⟨r', h, rfl, rfl, rfl, rfl⟩
  | cons e rest ih =>
      intro store r' h
      rw [updatePhase_cons] at h
      obtain ⟨r1, hr1, hid, himp, hkim, hcre⟩ := ih (updateOne e store) r' h
      rw [updateOne] at hr1
      obtain ⟨r0, hr0, hg⟩ := List.mem_map.mp hr1
      have hp := updateOne_preserves e r0
      rw [hg] at hp
      exact ⟨r0, hr0, hp.1.symm.trans hid, himp.trans hp.2.1,
        hkim.trans hp.2.2.1, hcre.trans hp.2.2.2⟩

theorem storeHarvestEntries_mem (now : String) (store : List StoredEntry)
    (entries : List HarvestEntry) :
    ∀ r' ∈ (storeHarvestEntries now store entries).1,
      (∃ r ∈ store, r.harvest_id = r'.harvest_id ∧ r'.imported = r.imported ∧
        r'.kimai_id = r.kimai_id ∧ r'.created_at = r.created_at) ∨
      (r'.imported = 0 ∧ r'.kimai_id = none ∧
        lookupStore store r'.harvest_id = none) := by
  intro r' h
  by_cases he : entries.isEmpty = true
  · rw [storeHarvestEntries, if_pos he] at h
    exact Or.inl ⟨r', h, rfl, rfl, rfl, rfl⟩
  · rw [storeHarvestEntries, if_neg he] at h
    obtain ⟨r1, hr1, hid, himp, hkim, hcre⟩ :=
      updatePhase_mem (entries.filter (classifyChanged store))
        (insertPhase now store (entries.filter (classifyNew store))).1 r' h
    rcases insertPhase_mem now (entries.filter (classifyNew store)) store r1 hr1
      with h1 | ⟨e, he', heq, hl⟩
    · exact Or.inl ⟨r1, h1, hid, himp, hkim, hcre⟩
    · right
      have h0 : r1.imported = 0 := by rw [heq]; rfl
      have h00 : r1.kimai_id = none := by rw [heq]; rfl
      have hh : r1.harvest_id = e.id := by rw [heq]; rfl
      refine ⟨himp.trans h0, hkim.trans h00, ?_⟩
      rw [← hid, hh]
      exact hl

theorem pending_mem (store : List StoredEntry) (tasks : List TaskRow) :
    ∀ p ∈ getAllPendingEntries store tasks,
      p.entry ∈ store ∧ p.entry.imported = 0 := by
  intro p hp
  rw [getAllPendingEntries] at hp
  obtain ⟨r, hr, hpr⟩ := List.mem_flatMap.mp hp
  have hrs := List.mem_filter.mp hr
  have hr0 : r.imported = 0 := by simpa using hrs.2
  have hpe : p.entry = r := by
    split at hpr
    · have : p = ⟨r, none, none⟩ := by simpa using hpr
      rw [this]
    · obtain ⟨t', ht', hpt⟩ := List.mem_map.mp hpr
      rw [← hpt]
  rw [hpe]
  exact ⟨hrs.1, hr0⟩

/-- Claim C4: reclassifying a stored entry as changed updates only the
comparable fields: every row after a reconciliation either keeps the
`imported` flag and kimai id of the pre-existing row with its harvest id,
or is a freshly inserted row with `imported = 0` and no kimai id; hence a
row already marked imported stays imported and never reappears among the
pending entries selected for transfer. -/
theorem claim4_update_frame (now : String) (store : List StoredEntry)
    (entries : List HarvestEntry) (tasks : List TaskRow)
    (hstore : (store.map (fun r => r.harvest_id)).Nodup) :
    (∀ r' ∈ (storeHarvestEntries now store entries).1,
      (∃ r ∈ store, r.harvest_id = r'.harvest_id ∧ r'.imported = r.imported ∧
        r'.kimai_id = r.kimai_id) ∨
      (r'.imported = 0 ∧ r'.kimai_id = none)) ∧
    (∀ r ∈ store, r.imported = 1 →
      ∀ p ∈ getAllPendingEntries (storeHarvestEntries now store entries).1
        tasks, p.entry.harvest_id ≠ r.harvest_id) := by
  constructor
  · intro r' h
    rcases storeHarvestEntries_mem now store entries r' h with
      ⟨r, hr, k1, k2, k3, _⟩ | ⟨k1, k2, _⟩
    · exact Or.inl ⟨r, hr, k1, k2, k3⟩
    · exact Or.inr ⟨k1, k2⟩
  · intro r hr hr1 p hp hne
    obtain ⟨hmem, himp0⟩ := pending_mem _ tasks p hp
    rcases storeHarvestEntries_mem now store entries p.entry hmem with
      ⟨r0, hr0, k1, k2, _, _⟩ | ⟨_, _, k3⟩
    · have hrr : r0 = r := nodup_map_mem_inj (fun x => x.harvest_id) store
        hstore r0 hr0 r hr (k1.trans hne)
      rw [hrr, hr1] at k2
      rw [himp0] at k2
      exact absurd k2 (by decide)
    · rw [lookupStore] at k3
      have hnr := List.find?_eq_none.mp k3 r hr
      simp only [decide_eq_true_eq] at hnr
      exact hnr hne.symm

/-- Store row used in the claim C4 witness: already imported. -/
def claim4Row : StoredEntry :=
  { harvest_id := "7", kimai_id := some "k1", date := "2025-03-10",
    client := "c", project := "p", task := "t", notes := "old", hours := 1,
    started_time := none, ended_time := none, imported := 1,
    created_at := "2025-01-01" }

/-- Re-fetched entry for the claim C4 witness: same id, changed notes. -/
def claim4Entry : HarvestEntry :=
  { id := "7", spent_date := "2025-03-10", client := some "c",
    project := some "p", task := some "t", notes := some "new", hours := 1,
    started_time := none, ended_time := none, created_at := none }

theorem claim4_witness :
    (∀ r' ∈ (storeHarvestEntries "NOW" [claim4Row] [claim4Entry]).1,
      (∃ r ∈ [claim4Row], r.harvest_id = r'.harvest_id ∧
        r'.imported = r.imported ∧ r'.kimai_id = r.kimai_id) ∨
      (r'.imported = 0 ∧ r'.kimai_id = none)) ∧
    (∀ r ∈ [claim4Row], r.imported = 1 →
      ∀ p ∈ getAllPendingEntries
        (storeHarvestEntries "NOW" [claim4Row] [claim4Entry]).1 [],
        p.entry.harvest_id ≠ r.harvest_id) :=
  claim4_update_frame "NOW" [claim4Row] [claim4Entry] [] (by decide)

/-- Invariant of the `time_entries` table: an imported row carries a kimai
entry id. -/
def importedInv (store : List StoredEntry) : Prop :=
  ∀ r ∈ store, r.imported = 1 → r.kimai_id.isSome = true

/-- Claim C9: every store operation preserves the invariant that
`imported = 1` implies the kimai entry id is set — the initial table is
empty, reconciliation preserves it (fresh rows are inserted with
`imported = 0` and no kimai id, updates touch neither field), and
markAsImported is the only transition to `imported = 1` and sets the kimai
id in the same update. -/
theorem claim9_imported_implies_kimai_id (now : String)
    (store : List StoredEntry) (entries : List HarvestEntry)
    (hid kid : String) (hinv : importedInv store) :
    importedInv ([] : List StoredEntry) ∧
    importedInv (storeHarvestEntries now store entries).1 ∧
    (∀ r' ∈ (storeHarvestEntries now store entries).1,
      r'.harvest_id ∉ store.map (fun r => r.harvest_id) →
      r'.imported = 0 ∧ r'.kimai_id = none) ∧
    importedInv (markAsImported store hid kid) := by
  refine ⟨?_, ?_, ?_, ?_⟩
  · intro r hr
    exact absurd hr (List.not_mem_nil r)
  · intro r' h h1
    rcases storeHarvestEntries_mem now store entries r' h with
      ⟨r, hr, _, k2, k3, _⟩ | ⟨k1, _, _⟩
    · rw [k3]
      exact hinv r hr (k2.symm.trans h1)
    · rw [h1] at k1
      exact absurd k1 (by decide)
  · intro r' h hnm
    rcases storeHarvestEntries_mem now store entries r' h with
      ⟨r, hr, k1, _, _, _⟩ | ⟨k1, k2, _⟩
    · exact absurd (by rw [← k1]; exact List.mem_map_of_mem _ hr) hnm
    · exact ⟨k1, k2⟩
  · intro r' hr' h1
    rw [markAsImported] at hr'
    obtain ⟨r0, hr0, hg⟩ := List.mem_map.mp hr'
    rw [← hg] at h1 ⊢
    by_cases hc : r0.harvest_id = hid
    · rw [if_pos hc]
      rfl
    · rw [if_neg hc] at h1 ⊢
      exact hinv r0 hr0 h1

/-- Store row used in the claim C9 witness. -/
def claim9Row : StoredEntry :=
  { harvest_id := "9", kimai_id := some "k9", date := "2025-03-11",
    client := "c", project := "p", task := "t", notes := "n", hours := 2,
    started_time := none, ended_time := none, imported := 1,
    created_at := "2025-01-02" }

/-- Fresh entry used in the claim C9 witness. -/
def claim9Entry : HarvestEntry :=
  { id := "10", spent_date := "2025-03-12", client := none, project := none,
    task := none, notes := none, hours := 1, started_time := none,
    ended_time := none, created_at := none }

theorem claim9_witness :
    importedInv ([] : List StoredEntry) ∧
    importedInv (storeHarvestEntries "NOW" [claim9Row] [claim9Entry]).1 ∧
    (∀ r' ∈ (storeHarvestEntries "NOW" [claim9Row] [claim9Entry]).1,
      r'.harvest_id ∉ [claim9Row].map (fun r => r.harvest_id) →
      r'.imported = 0 ∧ r'.kimai_id = none) ∧
    importedInv (markAsImported [claim9Row] "9" "k99") :=
  claim9_imported_implies_kimai_id "NOW" [claim9Row] [claim9Entry] "9" "k99"
    (by unfold importedInv; decide)

/-! ## Idempotence of reconciliation -/

theorem lookupStore_map_preserve (g : StoredEntry → StoredEntry)
    (hg : ∀ r, (g r).harvest_id = r.harvest_id) (hid : String) :
    ∀ store, lookupStore (store.map g) hid = (lookupStore store hid).map g := by
  intro store
  induction store with
  | nil => rfl
  | cons r rest ih =>
      simp only [List.map_cons, lookupStore, List.find?_cons]
      rw [hg r]
      cases hd : decide (r.harvest_id = hid) with
      | true => rfl
      | false => exact ih

theorem lookupStore_updateOne (e : HarvestEntry) (store : List StoredEntry)
    (hid : String) :
    lookupStore (updateOne e store) hid =
      if e.id = hid then (lookupStore store hid).map (applyUpdate e)
      else lookupStore store hid := by
  have hg : ∀ r : StoredEntry,
      ((if r.harvest_id = e.id then applyUpdate e r else r).harvest_id
        = r.harvest_id) := fun r => (updateOne_preserves e r).1
  rw [updateOne, lookupStore_map_preserve _ hg hid store]
  cases hl : lookupStore store hid with
  | none => split <;> rfl
  | some rr =>
      have hrr : rr.harvest_id = hid := lookupStore_eq_some store hid rr hl
      show some (if rr.harvest_id = e.id then applyUpdate e rr else rr) =
        if e.id = hid then (some rr).map (applyUpdate e) else some rr
      by_cases hc : e.id = hid
      · rw [if_pos hc, if_pos (hrr.trans hc.symm)]
        rfl
      · rw [if_neg hc, if_neg (fun hh => hc (hh.symm.trans hrr))]

theorem updatePhase_lookup (upds : List HarvestEntry)
    (hnd : (upds.map (fun u => u.id)).Nodup) :
    ∀ store hid, lookupStore (updatePhase store upds).1 hid =
      match upds.find? (fun u => u.id = hid) with
      | some u => (lookupStore store hid).map (applyUpdate u)
      | none => lookupStore store hid := by
  induction upds with
  | nil => intro store hid; rfl
  | cons u rest ih =>
      rw [List.map_cons, List.nodup_cons] at hnd
      intro store hid
      have hstep : lookupStore (updatePhase store (u :: rest)).1 hid =
          lookupStore (updatePhase (updateOne u store) rest).1 hid := by
        rw [updatePhase_cons]
      rw [hstep, ih hnd.2 (updateOne u store) hid]
      by_cases hu : u.id = hid
      · have hnone : rest.find? (fun v => v.id = hid) = none := by
          rw [List.find?_eq_none]
          intro v hv
          simp only [decide_eq_true_eq]
          intro hvid
          exact hnd.1 (by
            rw [show u.id = v.id from hu.trans hvid.symm]
            exact List.mem_map_of_mem _ hv)
        have hcons : (u :: rest).find? (fun v => v.id = hid) = some u := by
          rw [List.find?_cons, show (decide (u.id = hid)) = true from
            decide_eq_true hu]
        rw [hnone, hcons]
        rw [lookupStore_updateOne, if_pos hu]
      · have hcons : (u :: rest).find? (fun v => v.id = hid) =
            rest.find? (fun v => v.id = hid) := by
          rw [List.find?_cons, show (decide (u.id = hid)) = false from by
            simp [hu]]
        rw [hcons, lookupStore_updateOne, if_neg hu]

theorem insertPhase_fresh (now : String) (news : List HarvestEntry) :
    ∀ store, (∀ x ∈ news, lookupStore store x.id = none) →
      (news.map (fun x => x.id)).Nodup →
      (insertPhase now store news).1 = store ++ news.map (insertRow now) ∧
      (insertPhase now store news).2.1 = news.length ∧
      (insertPhase now store news).2.2 = 0 := by
  induction news with
  | nil => intro store _ _; exact ⟨by simp [insertPhase], rfl, rfl⟩
  | cons e rest ih =>
      intro store hfr hnd
      rw [List.map_cons, List.nodup_cons] at hnd
      have he : lookupStore store e.id = none :=
        hfr e (List.mem_cons_self e rest)
      have hns : ¬ (lookupStore store e.id).isSome = true := by
        rw [he]
        simp
      have hfr1 : ∀ x ∈ rest,
          lookupStore (store ++ [insertRow now e]) x.id = none := by
        intro x hx
        rw [lookupStore, List.find?_append]
        rw [show List.find? (fun r => decide (r.harvest_id = x.id)) store
          = none from hfr x (List.mem_cons_of_mem e hx)]
        have hne : ¬ e.id = x.id := fun hh =>
          hnd.1 (by rw [hh]; exact List.mem_map_of_mem _ hx)
        simp [List.find?_cons, insertRow, hne]
      obtain ⟨ih1, ih2, ih3⟩ := ih (store ++ [insertRow now e]) hfr1 hnd.2
      refine ⟨?_, ?_, ?_⟩
      · rw [insertPhase_cons_new now store e rest hns]
        show (insertPhase now (store ++ [insertRow now e]) rest).1 = _
        rw [ih1, List.append_assoc]
        rfl
      · rw [insertPhase_cons_new now store e rest hns]
        show (insertPhase now (store ++ [insertRow now e]) rest).2.1 + 1 = _
        rw [ih2]
        rfl
      · rw [insertPhase_cons_new now store e rest hns]
        show (insertPhase now (store ++ [insertRow now e]) rest).2.2 = 0
        exact ih3

theorem lookup_insertRows (now : String) (news : List HarvestEntry)
    (e : HarvestEntry) :
    e ∈ news → (news.map (fun x => x.id)).Nodup →
    lookupStore (news.map (insertRow now)) e.id = some (insertRow now e) := by
  induction news with
  | nil => intro he _; exact absurd he (List.not_mem_nil e)
  | cons f rest ih =>
      intro he hnd
      rw [List.map_cons, List.nodup_cons] at hnd
      rcases List.mem_cons.mp he with rfl | he'
      · simp only [lookupStore, List.map_cons, List.find?_cons]
        rw [show (decide ((insertRow now e).harvest_id = e.id)) = true from by
          simp [insertRow]]
      · have hne : ¬ f.id = e.id := fun hh =>
          hnd.1 (by rw [hh]; exact List.mem_map_of_mem _ he')
        simp only [lookupStore, List.map_cons, List.find?_cons]
        rw [show (decide ((insertRow now f).harvest_id = e.id)) = false from by
          simp [insertRow, hne]]
        exact ih he' hnd.2

theorem matchesRow_insertRow (now : String) (e : HarvestEntry) :
    matchesRow (insertRow now e) e = true := by
  simp [matchesRow, insertRow]

theorem matchesRow_applyUpdate (e : HarvestEntry) (r : StoredEntry) :
    matchesRow (applyUpdate e r) e = true := by
  simp [matchesRow, applyUpdate]

theorem find?_key_self (l : List HarvestEntry) (e : HarvestEntry) :
    e ∈ l → (∀ u ∈ l, u.id = e.id → u = e) →
    l.find? (fun u => u.id = e.id) = some e := by
  induction l with
  | nil => intro he _; exact absurd he (List.not_mem_nil e)
  | cons x rest ih =>
      intro he hinj
      rw [List.find?_cons]
      by_cases hx : x.id = e.id
      · rw [show (decide (x.id = e.id)) = true from decide_eq_true hx]
        rw [hinj x (List.mem_cons_self x rest) hx]
      · rw [show (decide (x.id = e.id)) = false from by simp [hx]]
        have he' : e ∈ rest := by
          rcases List.mem_cons.mp he with rfl | h
          · exact absurd rfl hx
          · exact h
        exact ih he' (fun u hu hid => hinj u (List.mem_cons_of_mem x hu) hid)

theorem run1_lookup (now : String) (store : List StoredEntry)
    (entries : List HarvestEntry)
    (hids : (entries.map (fun e => e.id)).Nodup)
    (hne : ¬ entries.isEmpty = true) :
    ∀ e ∈ entries,
      ∃ r, lookupStore (storeHarvestEntries now store entries).1 e.id = some r
        ∧ matchesRow r e = true := by
  intro e he
  have hKey : ∀ u ∈ entries, u.id = e.id → u = e :=
    fun u hu hid => nodup_map_mem_inj (fun x => x.id) entries hids u hu e he hid
  have hfrNews : ∀ x ∈ entries.filter (classifyNew store),
      lookupStore store x.id = none := by
    intro x hx
    have h2 := (List.mem_filter.mp hx).2
    rwa [classifyNew, Option.isNone_iff_eq_none] at h2
  have hndNews : ((entries.filter (classifyNew store)).map
      (fun x => x.id)).Nodup :=
    List.Nodup.sublist (List.Sublist.map _ (List.filter_sublist entries)) hids
  have hndUpds : ((entries.filter (classifyChanged store)).map
      (fun x => x.id)).Nodup :=
    List.Nodup.sublist (List.Sublist.map _ (List.filter_sublist entries)) hids
  obtain ⟨hIns1, _, _⟩ := insertPhase_fresh now
    (entries.filter (classifyNew store)) store hfrNews hndNews
  rw [storeHarvestEntries, if_neg hne]
  show ∃ r, lookupStore (updatePhase
      (insertPhase now store (entries.filter (classifyNew store))).1
      (entries.filter (classifyChanged store))).1 e.id = some r ∧
    matchesRow r e = true
  rw [updatePhase_lookup (entries.filter (classifyChanged store)) hndUpds]
  rw [hIns1]
  cases hl : lookupStore store e.id with
  | none =>
      have heNew : e ∈ entries.filter (classifyNew store) :=
        List.mem_filter.mpr ⟨he, by rw [classifyNew, hl]; rfl⟩
      have hfu : (entries.filter (classifyChanged store)).find?
          (fun u => u.id = e.id) = none := by
        rw [List.find?_eq_none]
        intro u hu
        simp only [decide_eq_true_eq]
        intro hid
        have hue : u = e := hKey u (List.mem_filter.mp hu).1 hid
        rw [hue] at hu
        have hc := (List.mem_filter.mp hu).2
        simp [classifyChanged, hl] at hc
      rw [hfu]
      refine ⟨insertRow now e, ?_, matchesRow_insertRow now e⟩
      show lookupStore (store ++ (entries.filter (classifyNew store)).map
        (insertRow now)) e.id = some (insertRow now e)
      rw [lookupStore, List.find?_append]
      rw [show List.find? (fun r => decide (r.harvest_id = e.id)) store
        = none from hl]
      rw [show List.find? (fun r => decide (r.harvest_id = e.id))
          ((entries.filter (classifyNew store)).map (insertRow now))
        = some (insertRow now e) from
          lookup_insertRows now _ e heNew hndNews]
      rfl
  | some r0 =>
      cases hm : matchesRow r0 e with
      | true =>
          have hfu : (entries.filter (classifyChanged store)).find?
              (fun u => u.id = e.id) = none := by
            rw [List.find?_eq_none]
            intro u hu
            simp only [decide_eq_true_eq]
            intro hid
            have hue : u = e := hKey u (List.mem_filter.mp hu).1 hid
            rw [hue] at hu
            have hc := (List.mem_filter.mp hu).2
            simp [classifyChanged, hl, hm] at hc
          rw [hfu]
          refine ⟨r0, ?_, hm⟩
          show lookupStore (store ++ (entries.filter (classifyNew store)).map
            (insertRow now)) e.id = some r0
          rw [lookupStore, List.find?_append]
          rw [show List.find? (fun r => decide (r.harvest_id = e.id)) store
            = some r0 from hl]
          rfl
      | false =>
          have heU : e ∈ entries.filter (classifyChanged store) :=
            List.mem_filter.mpr ⟨he, by simp [classifyChanged, hl, hm]⟩
          have hfu : (entries.filter (classifyChanged store)).find?
              (fun u => u.id = e.id) = some e :=
            find?_key_self _ e heU
              (fun u hu hid => hKey u (List.mem_filter.mp hu).1 hid)
          rw [hfu]
          refine ⟨applyUpdate e r0, ?_, matchesRow_applyUpdate e r0⟩
          show (lookupStore (store ++ (entries.filter (classifyNew store)).map
            (insertRow now)) e.id).map (applyUpdate e) = some (applyUpdate e r0)
          rw [lookupStore, List.find?_append]
          rw [show List.find? (fun r => decide (r.harvest_id = e.id)) store
            = some r0 from hl]
          rfl

/-- Claim C3: reconciliation is idempotent — feeding the same batch (with
distinct source ids, as Harvest guarantees and as required for the first
run to succeed without UNIQUE violations) into storeHarvestEntries a second
time classifies every entry as unchanged: it reports
unchanged = batch size, inserted = 0, updated = 0, no errors, and leaves
the store exactly as the first run left it. -/
theorem claim3_reconciliation_idempotent (now now2 : String)
    (store : List StoredEntry) (entries : List HarvestEntry)
    (hids : (entries.map (fun e => e.id)).Nodup) :
    (storeHarvestEntries now2
        (storeHarvestEntries now store entries).1 entries).1 =
      (storeHarvestEntries now store entries).1 ∧
    (storeHarvestEntries now2
        (storeHarvestEntries now store entries).1 entries).2 =
      ⟨0, 0, entries.length, 0, 0⟩ := by
  by_cases hne : entries.isEmpty = true
  · have hnil : entries = [] := List.isEmpty_iff.mp hne
    subst hnil
    exact ⟨rfl, rfl⟩
  · have hM := run1_lookup now store entries hids hne
    have hnew : entries.filter
        (classifyNew (storeHarvestEntries now store entries).1) = [] := by
      rw [List.filter_eq_nil_iff]
      intro e he
      obtain ⟨r, hr, _⟩ := hM e he
      simp [classifyNew, hr]
    have hchg : entries.filter
        (classifyChanged (storeHarvestEntries now store entries).1) = [] := by
      rw [List.filter_eq_nil_iff]
      intro e he
      obtain ⟨r, hr, hm⟩ := hM e he
      simp [classifyChanged, hr, hm]
    have hunch : entries.filter
        (classifyUnchanged (storeHarvestEntries now store entries).1)
          = entries := by
      rw [List.filter_eq_self]
      intro e he
      obtain ⟨r, hr, hm⟩ := hM e he
      simp [classifyUnchanged, hr, hm]
    have hrw : storeHarvestEntries now2
        (storeHarvestEntries now store entries).1 entries =
      ((updatePhase (insertPhase now2
          (storeHarvestEntries now store entries).1
          (entries.filter
            (classifyNew (storeHarvestEntries now store entries).1))).1
        (entries.filter
          (classifyChanged (storeHarvestEntries now store entries).1))).1,
        ⟨(insertPhase now2 (storeHarvestEntries now store entries).1
            (entries.filter
              (classifyNew (storeHarvestEntries now store entries).1))).2.1,
          (updatePhase (insertPhase now2
              (storeHarvestEntries now store entries).1
              (entries.filter
                (classifyNew (storeHarvestEntries now store entries).1))).1
            (entries.filter
              (classifyChanged
                (storeHarvestEntries now store entries).1))).2,
          (entries.filter
            (classifyUnchanged
              (storeHarvestEntries now store entries).1)).length,
          (insertPhase now2 (storeHarvestEntries now store entries).1
            (entries.filter
              (classifyNew (storeHarvestEntries now store entries).1))).2.2,
          0⟩) := by
      rw [storeHarvestEntries, if_neg hne]
    rw [hrw, hnew, hchg, hunch]
    exact ⟨rfl, rfl⟩

/-- Entry used in the claim C3 witness. -/
def claim3Entry : HarvestEntry :=
  { id := "31", spent_date := "2025-03-01", client := some "c",
    project := some "p", task := some "t", notes := some "n", hours := 2,
    started_time := none, ended_time := none,
    created_at := some "2025-03-01T10:00:00Z" }

theorem claim3_witness :
    (storeHarvestEntries "T2"
        (storeHarvestEntries "T1" [] [claim3Entry]).1 [claim3Entry]).1 =
      (storeHarvestEntries "T1" [] [claim3Entry]).1 ∧
    (storeHarvestEntries "T2"
        (storeHarvestEntries "T1" [] [claim3Entry]).1 [claim3Entry]).2 =
      ⟨0, 0, ([claim3Entry] : List HarvestEntry).length, 0, 0⟩ :=
  claim3_reconciliation_idempotent "T1" "T2" [] [claim3Entry] (by decide)
